import Mathlib

/-
Verification of the simplexpr evaluation core (src/eval.rs) against its
natural-language specification.  The evaluator, the expression-tree
operations and the function registry are embedded directly from
src/eval.rs.  The supporting types (Span, DynVal and its conversions, the
JSON and regex engines) live in files of the repository that are not part
of src/ (ast.rs, dynval.rs) or in external crates (serde_json, regex);
those are modelled from the specification's description, as flagged in
their doc comments.
-/

namespace Simplexpr

/-- Source-location token attached to AST nodes and errors.
Modelled from the spec: ast.rs (outside src/) defines Span as "a
source-location range attached to every AST node", which "carries no
semantic weight in comparisons"; it is abstracted to an opaque
natural-number token. -/
abbrev Span := Nat

/-- Dynamic value. Modelled from the spec: dynval.rs (outside src/) defines
DynVal as "an opaque scalar represented internally as its canonical string
form, optionally tagged with a span"; the span tag "carries no semantic
weight in comparisons" and is dropped, so a DynVal is its canonical
string. -/
abbrev DynVal := String

/-- Environment: the name-to-value mapping supplied to evaluation.  Models
HashMap String DynVal as an association list with unique keys. -/
abbrev Env := List (String × DynVal)

def lookupVar : Env → String → Option DynVal
  | [], _ => none
  | (k, v) :: rest, n => if k = n then some v else lookupVar rest n

/-- Conversion-error message.  Modelled from the spec: dynval.rs's
ConversionError names the offending value and the target type. -/
def convErr (v target : String) : String :=
  "Failed to turn " ++ v ++ " into a value of type " ++ target

/-- Modelled from the spec: as_bool "succeeds for canonical boolean-like
strings, fails otherwise" (Rust bool FromStr accepts exactly "true" and
"false"). -/
def as_bool (v : DynVal) : Except String Bool :=
  if v = "true" then .ok true
  else if v = "false" then .ok false
  else .error (convErr v "bool")

/-- Modelled from the spec: as_string "always succeeds (DynVal is
string-backed)". -/
def as_string (v : DynVal) : String := v

def digitVal (c : Char) : Nat := c.toNat - '0'.toNat

def digitsToNat (ds : List Char) : Nat :=
  ds.foldl (fun acc c => acc * 10 + digitVal c) 0

/-- Exact fraction over machine-friendly integers, standing in for the f64
values of dynval.rs.  Mathlib's Rat has irreducible arithmetic, so this
small explicit representation keeps every numeric path of the model
computable by the kernel.  The denominator is kept positive by the smart
constructor; representations are not reduced — only the rendered string of
a result is ever observed, and every claim exercises integral results. -/
structure Frac where
  n : Int
  d : Int
deriving DecidableEq

def Frac.mk' (n d : Int) : Frac := if d < 0 then ⟨-n, -d⟩ else ⟨n, d⟩

def Frac.add (a b : Frac) : Frac := Frac.mk' (a.n * b.d + b.n * a.d) (a.d * b.d)

def Frac.sub (a b : Frac) : Frac := Frac.mk' (a.n * b.d - b.n * a.d) (a.d * b.d)

def Frac.mul (a b : Frac) : Frac := Frac.mk' (a.n * b.n) (a.d * b.d)

/-- Division; a zero divisor yields a zero denominator, the model's stand-in
for the IEEE infinity the spec assigns to division by zero (no claim
exercises it). -/
def Frac.div (a b : Frac) : Frac := Frac.mk' (a.n * b.d) (a.d * b.n)

def Frac.blt (a b : Frac) : Bool := a.n * b.d < b.n * a.d

def Frac.neg (a : Frac) : Frac := ⟨-a.n, a.d⟩

/-- Truncation toward zero, the rounding Rust's % on f64 applies to the
quotient (the remainder keeps the dividend's sign); Int.tdiv truncates
toward zero. -/
def Frac.trunc (a : Frac) : Int := Int.tdiv a.n a.d

/-- Floating-point remainder of the Mod operator: x - y * trunc(x / y).
Remainder by zero is IEEE NaN in Rust and outside the model; no claim
exercises it. -/
def Frac.fmod (x y : Frac) : Frac :=
  if y.n = 0 then ⟨0, 1⟩ else Frac.sub x (Frac.mul y ⟨Frac.trunc (Frac.div x y), 1⟩)

/-- Modelled from the spec: as_f64 must "parse numeric strings; fail with a
conversion error (not with a panic) on non-numeric input".  The accepted
grammar is the plain-decimal core of Rust's f64 FromStr — sign? digits*
(. digits*)? with at least one digit; exponent and inf/nan spellings are
outside the model.  The value is kept as an exact fraction: IEEE-754
rounding is abstracted away and no claim depends on it. -/
def parseDecimal (s : String) : Option Frac :=
  let step : List Char → Option Frac := fun cs =>
    let ip := cs.takeWhile Char.isDigit
    let rest := cs.dropWhile Char.isDigit
    match rest with
    | [] => if ip.isEmpty then none else some ⟨(digitsToNat ip : Int), 1⟩
    | '.' :: fracCs =>
        let fp := fracCs.takeWhile Char.isDigit
        let rest2 := fracCs.dropWhile Char.isDigit
        if rest2.isEmpty then
          if ip.isEmpty && fp.isEmpty then none
          else some ⟨(digitsToNat ip * 10 ^ fp.length + digitsToNat fp : Int), (10 ^ fp.length : Nat)⟩
        else none
    | _ => none
  match s.data with
  | '+' :: cs => step cs
  | '-' :: cs => (step cs).map Frac.neg
  | cs => step cs

def as_f64 (v : DynVal) : Except String Frac :=
  match parseDecimal v with
  | some q => .ok q
  | none => .error (convErr v "f64")

/-- Modelled from the spec: as_i32 parses the string with Rust's i32
FromStr — sign? digits, value within the i32 range. -/
def parseIntStrict (s : String) : Option Int :=
  let core : List Char → Option Nat := fun cs =>
    if cs.isEmpty then none
    else if cs.all Char.isDigit then some (digitsToNat cs) else none
  match s.data with
  | '+' :: cs => (core cs).map Int.ofNat
  | '-' :: cs => (core cs).map (fun n => -(n : Int))
  | cs => (core cs).map Int.ofNat

def as_i32 (v : DynVal) : Except String Int :=
  match parseIntStrict v with
  | some n =>
    if -2147483648 ≤ n ∧ n < 2147483648 then .ok n else .error (convErr v "i32")
  | none => .error (convErr v "i32")

def fromBool (b : Bool) : DynVal := if b then "true" else "false"

/-- Modelled from the spec: DynVal::from(f64) renders the number back to its
canonical string.  Integral values render as Rust renders them (3.0 prints
as "3"); non-integral rendering is abstracted to a num/den form — every
claim exercises only integral results. -/
def numToString (q : Frac) : String :=
  if q.d ≠ 0 ∧ Int.emod q.n q.d = 0 then toString (Int.tdiv q.n q.d)
  else toString q.n ++ "/" ++ toString q.d

def fromNum (q : Frac) : DynVal := numToString q

/-- Cast of an i32 value to usize, as performed by Rust's as-cast in
src/eval.rs line 180: two's-complement wraparound into the 64-bit range
(18446744073709551616 is 2 to the 64th). -/
def usizeOfI32 (n : Int) : Nat := (n % 18446744073709551616).toNat

/-- JSON values as produced by the external serde_json crate (modelled from
the spec).  Number tokens are kept verbatim: serialization re-emits the
token, matching serde_json on the inputs exercised here without modelling
IEEE-754. -/
inductive Json where
  | null
  | bool (b : Bool)
  | num (tok : String)
  | str (s : String)
  | arr (elems : List Json)
  | obj (members : List (String × Json))

def skipWs : List Char → List Char
  | [] => []
  | c :: cs => if c = ' ' ∨ c = '\t' ∨ c = '\n' ∨ c = '\r' then skipWs cs else c :: cs

def unescapeChar (c : Char) : Char :=
  if c = 'n' then '\n' else if c = 't' then '\t' else if c = 'r' then '\r' else c

/-- String-literal body scanner for the JSON model: consumes up to the
closing quote, resolving the standard one-character escapes (the \u form is
outside the model; no claim exercises it). -/
def parseStringLit : List Char → Option (String × List Char)
  | [] => none
  | c :: cs =>
    if c = '"' then some ("", cs)
    else if c = '\\' then
      match cs with
      | [] => none
      | e :: cs' => (parseStringLit cs').map (fun p => (String.mk (unescapeChar e :: p.1.data), p.2))
    else (parseStringLit cs).map (fun p => (String.mk (c :: p.1.data), p.2))

def splitDigits (cs : List Char) : List Char × List Char :=
  (cs.takeWhile Char.isDigit, cs.dropWhile Char.isDigit)

/-- Number-token scanner for the JSON model: -? digits (. digits)?, token
returned verbatim (exponent spellings are outside the model; no claim
exercises them). -/
def parseNumTok (cs : List Char) : Option (List Char × List Char) :=
  let signed : List Char → List Char → Option (List Char × List Char) := fun pre body =>
    let (ip, r1) := splitDigits body
    if ip.isEmpty then none
    else match r1 with
      | '.' :: r2 =>
        let (fp, r3) := splitDigits r2
        if fp.isEmpty then none
        else some (pre ++ ip ++ '.' :: fp, r3)
      | _ => some (pre ++ ip, r1)
  match cs with
  | '-' :: r => signed ['-'] r
  | _ => signed [] cs

mutual
def parseJsonF : Nat → List Char → Option (Json × List Char)
  | 0, _ => none
  | Nat.succ fuel, cs =>
    match skipWs cs with
    | 'n' :: 'u' :: 'l' :: 'l' :: r => some (.null, r)
    | 't' :: 'r' :: 'u' :: 'e' :: r => some (.bool true, r)
    | 'f' :: 'a' :: 'l' :: 's' :: 'e' :: r => some (.bool false, r)
    | '"' :: r => (parseStringLit r).map (fun p => (.str p.1, p.2))
    | '[' :: r =>
      match skipWs r with
      | ']' :: r' => some (.arr [], r')
      | r' => (parseItemsF fuel r').map (fun p => (.arr p.1, p.2))
    | '\x7b' :: r =>
      match skipWs r with
      | '\x7d' :: r' => some (.obj [], r')
      | r' => (parseMembersF fuel r').map (fun p => (.obj p.1, p.2))
    | r => (parseNumTok r).map (fun p => (.num (String.mk p.1), p.2))

def parseItemsF : Nat → List Char → Option (List Json × List Char)
  | 0, _ => none
  | Nat.succ fuel, cs =>
    match parseJsonF fuel cs with
    | none => none
    | some (j, r) =>
      match skipWs r with
      | ',' :: r' => (parseItemsF fuel (skipWs r')).map (fun p => (j :: p.1, p.2))
      | ']' :: r' => some ([j], r')
      | _ => none

def parseMembersF : Nat → List Char → Option (List (String × Json) × List Char)
  | 0, _ => none
  | Nat.succ fuel, cs =>
    match skipWs cs with
    | '"' :: r =>
      match parseStringLit r with
      | none => none
      | some (key, r1) =>
        match skipWs r1 with
        | ':' :: r2 =>
          match parseJsonF fuel (skipWs r2) with
          | none => none
          | some (v, r3) =>
            match skipWs r3 with
            | ',' :: r4 => (parseMembersF fuel (skipWs r4)).map (fun p => ((key, v) :: p.1, p.2))
            | '\x7d' :: r4 => some ([(key, v)], r4)
            | _ => none
        | _ => none
    | _ => none
end

/-- Modelled from the spec: as_json_value "parses the string as JSON; fails
if invalid" (serde_json::from_str); the whole input must be consumed,
trailing whitespace aside. -/
def as_json_value (v : DynVal) : Except String Json :=
  match parseJsonF (v.length * 2 + 4) v.data with
  | some (j, rest) => if (skipWs rest).isEmpty then .ok j else .error (convErr v "json")
  | none => .error (convErr v "json")

def escapeJsonString (s : String) : String :=
  String.mk (s.data.foldr (fun c acc =>
    if c = '"' then '\\' :: '"' :: acc
    else if c = '\\' then '\\' :: '\\' :: acc
    else c :: acc) [])

mutual
def serializeJson : Json → String
  | .null => "null"
  | .bool true => "true"
  | .bool false => "false"
  | .num tok => tok
  | .str s => "\"" ++ escapeJsonString s ++ "\""
  | .arr xs => "[" ++ serializeItems xs ++ "]"
  | .obj ms => "\x7b" ++ serializeMembers ms ++ "\x7d"

def serializeItems : List Json → String
  | [] => ""
  | [x] => serializeJson x
  | x :: rest => serializeJson x ++ "," ++ serializeItems rest

def serializeMembers : List (String × Json) → String
  | [] => ""
  | [(k, v)] => "\"" ++ escapeJsonString k ++ "\":" ++ serializeJson v
  | (k, v) :: rest =>
      "\"" ++ escapeJsonString k ++ "\":" ++ serializeJson v ++ "," ++ serializeMembers rest
end

/-- Modelled from the spec: DynVal::from(&serde_json::Value) in dynval.rs
(outside src/) — a JSON string becomes its raw text, any other JSON value
its serialization. -/
def fromJson : Json → DynVal
  | .str s => s
  | j => serializeJson j

/-- First-match association lookup in a parsed JSON object (serde_json
Map::get; parsed objects carry unique keys). -/
def jsonLookup : List (String × Json) → String → Option Json
  | [], _ => none
  | (k, v) :: rest, key => if k = key then some v else jsonLookup rest key

/-- Compiled-pattern token for the regex model: a literal character or the
any-character dot. -/
inductive RToken where
  | lit (c : Char)
  | any

/-- Characters that are regex metacharacters and hence outside the
literal-pattern subset of the model. -/
def regexMeta : List Char := ['[', ']', '(', ')', '\x7b', '\x7d', '|', '*', '+', '?', '^', '$']

/-- Modelled from the spec: Regex::new of the external regex crate,
restricted to the pattern subset the claims exercise — literal characters,
the dot, and backslash-escaped punctuation (so the pattern from the spec's
replace example compiles to a literal dot).  Patterns using other regex
constructs are outside the model and are rejected here. -/
def compileRegex (p : String) : Except String (List RToken) :=
  let rec go : List Char → Except String (List RToken)
    | [] => .ok []
    | '\\' :: [] => .error "regex parse error: trailing backslash"
    | '\\' :: c :: rest =>
      if c.isAlphanum then .error "regex construct outside the model"
      else (go rest).map (fun ts => .lit c :: ts)
    | '.' :: rest => (go rest).map (fun ts => .any :: ts)
    | c :: rest =>
      if c ∈ regexMeta then .error "regex construct outside the model"
      else (go rest).map (fun ts => .lit c :: ts)
  go p.data

def tokMatches : RToken → Char → Bool
  | .lit c, d => c = d
  | .any, _ => true

/-- Length of the match of a fixed-length token list at the head of the
input, when the whole token list matches there. -/
def matchLen : List RToken → List Char → Option Nat
  | [], _ => some 0
  | _ :: _, [] => none
  | t :: ts, c :: cs => if tokMatches t c then (matchLen ts cs).map Nat.succ else none

/-- Whether the compiled pattern matches anywhere in the input
(Regex::is_match of the regex crate, on the modelled subset). -/
def regexIsMatchList : List RToken → List Char → Bool
  | toks, [] => (matchLen toks []).isSome
  | toks, c :: cs => (matchLen toks (c :: cs)).isSome || regexIsMatchList toks cs

def regexIsMatch (toks : List RToken) (s : String) : Bool :=
  regexIsMatchList toks s.data

def isNameChar (c : Char) : Bool := c.isAlphanum || c = '_'

/-- Capture-group value during replacement expansion: group 0 is the whole
match; the modelled pattern subset has no other groups, and the regex crate
substitutes the empty string for an unknown group. -/
def groupValue (name : String) (matched : String) : List Char :=
  if name = "0" then matched.data else []

mutual
/-- Replacement-string expansion of the regex crate (modelled from the
spec's description of back-reference syntax): a dollar sign followed by a
name is a capture reference, a doubled dollar sign is a literal dollar, and
a dollar sign followed by nothing interpretable stays literal.  The braced
group form is outside the model; no claim exercises it. -/
def expand : List Char → String → List Char
  | [], _ => []
  | c :: rest, m => if c = '$' then expandDollar rest m else c :: expand rest m

def expandDollar : List Char → String → List Char
  | [], _ => ['$']
  | c :: rest, m =>
    if c = '$' then '$' :: expand rest m
    else if isNameChar c then expandName (String.mk [c]) rest m
    else '$' :: c :: expand rest m

def expandName (acc : String) : List Char → String → List Char
  | [], m => groupValue acc m
  | c :: rest, m =>
    if isNameChar c then expandName (acc.push c) rest m
    else if c = '$' then groupValue acc m ++ expandDollar rest m
    else groupValue acc m ++ c :: expand rest m
end

/-- Leftmost, non-overlapping global replacement scan
(Regex::replace_all of the regex crate, on the modelled fixed-length
pattern subset).  Structured over fuel so that the kernel can evaluate it;
every step consumes at least one input character, so the initial fuel of
length plus one in replaceAll never runs out. -/
def scanReplaceF : Nat → List RToken → List Char → List Char → List Char
  | 0, _, _, _ => []
  | _ + 1, toks, rep, [] => if toks.isEmpty then expand rep "" else []
  | fuel + 1, toks, rep, c :: cs =>
    match matchLen toks (c :: cs) with
    | none => c :: scanReplaceF fuel toks rep cs
    | some 0 => expand rep "" ++ c :: scanReplaceF fuel toks rep cs
    | some (n + 1) =>
        expand rep (String.mk (List.take (n + 1) (c :: cs))) ++
          scanReplaceF fuel toks rep (List.drop n cs)

def replaceAll (toks : List RToken) (s : String) (rep : String) : String :=
  String.mk (scanReplaceF (s.length + 1) toks rep.data s.data)

/-- Escaping transform applied to the replacement string in
call_expr_function (src/eval.rs line 217):
replacement.replace("$", "$$").replace("\\", "$").  Both patterns are
single characters and the first replacement introduces no backslash, so the
composition acts character-wise: a dollar sign doubles, a backslash becomes
a single dollar sign, everything else is unchanged. -/
def escapeChars : List Char → List Char
  | [] => []
  | c :: rest =>
    if c = '$' then '$' :: '$' :: escapeChars rest
    else if c = '\\' then '$' :: escapeChars rest
    else c :: escapeChars rest

def escapeReplacement (r : String) : String := String.mk (escapeChars r.data)

/-- Binary operator set of the expression language (ast.rs, as listed by
the spec and matched on in src/eval.rs lines 138-158). -/
inductive BinOpKind where
  | Equals
  | NotEquals
  | And
  | Or
  | Plus
  | Minus
  | Times
  | Div
  | Mod
  | GT
  | LT
  | Elvis
  | RegexMatch
deriving DecidableEq

/-- Unary operator set (ast.rs): logical negation only. -/
inductive UnaryOpKind where
  | Not
deriving DecidableEq

/-- Expression tree (ast.rs, described by the spec's data model and
consumed by src/eval.rs): seven node kinds, each carrying a Span. -/
inductive SimplExpr where
  | Literal (span : Span) (value : DynVal)
  | VarRef (span : Span) (name : String)
  | BinOp (span : Span) (l : SimplExpr) (op : BinOpKind) (r : SimplExpr)
  | UnaryOp (span : Span) (op : UnaryOpKind) (a : SimplExpr)
  | IfElse (span : Span) (cond : SimplExpr) (yes : SimplExpr) (no : SimplExpr)
  | JsonAccess (span : Span) (val : SimplExpr) (index : SimplExpr)
  | FunctionCall (span : Span) (name : String) (args : List SimplExpr)

/-- Error taxonomy of src/eval.rs lines 9-37.  The payload of
ConversionError (dynval.rs's error type) is modelled as its message
string. -/
inductive EvalError where
  | NoVariablesAllowed (name : String)
  | InvalidRegex (msg : String)
  | UnresolvedVariable (name : String)
  | ConversionError (msg : String)
  | WrongArgCount (fnName : String)
  | UnknownFunction (name : String)
  | UnknownVariable (name : String)
  | CannotIndex (valStr : String)
  | Spanned (span : Span) (inner : EvalError)
deriving DecidableEq

/-- EvalError::at (src/eval.rs lines 48-50): wrap the error with a span. -/
def EvalError.atSpan (e : EvalError) (span : Span) : EvalError := .Spanned span e

instance exceptDecEq {ε α : Type} [DecidableEq ε] [DecidableEq α] :
    DecidableEq (Except ε α)
  | .ok a, .ok b =>
    if h : a = b then .isTrue (by rw [h]) else .isFalse (fun hh => by cases hh; exact h rfl)
  | .ok _, .error _ => .isFalse (fun h => by cases h)
  | .error _, .ok _ => .isFalse (fun h => by cases h)
  | .error a, .error b =>
    if h : a = b then .isTrue (by rw [h]) else .isFalse (fun hh => by cases hh; exact h rfl)

/-- The host-extension capability interface of src/eval.rs lines 55-58:
run_fn(name, args) -> Result<DynVal, Err>.  Declared in the source but —
as claim C7 settles — never consulted by eval's dispatch. -/
structure FunctionSource (Err : Type) where
  run_fn : String → List DynVal → Except Err DynVal

/-- Embedding of SimplExpr::map_terminals_into (src/eval.rs lines 61-71). -/
def SimplExpr.map_terminals_into (f : SimplExpr → SimplExpr) : SimplExpr → SimplExpr
  | .BinOp span a op b => .BinOp span (f a) op (f b)
  | .UnaryOp span op a => .UnaryOp span op (f a)
  | .IfElse span a b c => .IfElse span (f a) (f b) (f c)
  | .JsonAccess span a b => .JsonAccess span (f a) (f b)
  | .FunctionCall span name args => .FunctionCall span name (args.map f)
  | other => f other

mutual
/-- Embedding of SimplExpr::resolve_refs (src/eval.rs lines 74-97). -/
def SimplExpr.resolve_refs : SimplExpr → Env → Except EvalError SimplExpr
  | .Literal span x, _ => .ok (.Literal span x)
  | .BinOp span a op b, vars =>
    match a.resolve_refs vars with
    | .error e => .error e
    | .ok a' =>
      match b.resolve_refs vars with
      | .error e => .error e
      | .ok b' => .ok (.BinOp span a' op b')
  | .UnaryOp span op x, vars =>
    match x.resolve_refs vars with
    | .error e => .error e
    | .ok x' => .ok (.UnaryOp span op x')
  | .IfElse span a b c, vars =>
    match a.resolve_refs vars with
    | .error e => .error e
    | .ok a' =>
      match b.resolve_refs vars with
      | .error e => .error e
      | .ok b' =>
        match c.resolve_refs vars with
        | .error e => .error e
        | .ok c' => .ok (.IfElse span a' b' c')
  | .JsonAccess span a b, vars =>
    match a.resolve_refs vars with
    | .error e => .error e
    | .ok a' =>
      match b.resolve_refs vars with
      | .error e => .error e
      | .ok b' => .ok (.JsonAccess span a' b')
  | .FunctionCall span name args, vars =>
    match SimplExpr.resolveRefsList args vars with
    | .error e => .error e
    | .ok args' => .ok (.FunctionCall span name args')
  | .VarRef span name, vars =>
    match lookupVar vars name with
    | some value => .ok (.Literal span value)
    | none => .error (.Spanned span (.UnknownVariable name))

def SimplExpr.resolveRefsList : List SimplExpr → Env → Except EvalError (List SimplExpr)
  | [], _ => .ok []
  | a :: rest, vars =>
    match a.resolve_refs vars with
    | .error e => .error e
    | .ok a' =>
      match SimplExpr.resolveRefsList rest vars with
      | .error e => .error e
      | .ok rest' => .ok (a' :: rest')
end

mutual
/-- Embedding of SimplExpr::var_refs (src/eval.rs lines 99-118): referenced
names, depth-first left-to-right, duplicates kept. -/
def SimplExpr.var_refs : SimplExpr → List String
  | .Literal _ _ => []
  | .VarRef _ name => [name]
  | .BinOp _ a _ b => a.var_refs ++ b.var_refs
  | .JsonAccess _ a b => a.var_refs ++ b.var_refs
  | .UnaryOp _ _ x => x.var_refs
  | .IfElse _ a b c => a.var_refs ++ (b.var_refs ++ c.var_refs)
  | .FunctionCall _ _ args => SimplExpr.varRefsList args

def SimplExpr.varRefsList : List SimplExpr → List String
  | [] => []
  | a :: rest => a.var_refs ++ SimplExpr.varRefsList rest
end

/-- Shared shape of the numeric operator arms: both operands coerced with
as_f64, first failure propagated as a ConversionError. -/
def numeric2 (f : Frac → Frac → DynVal) (a b : DynVal) : Except EvalError DynVal :=
  match as_f64 a with
  | .error m => .error (.ConversionError m)
  | .ok x =>
    match as_f64 b with
    | .error m => .error (.ConversionError m)
    | .ok y => .ok (f x y)

/-- Operator table of the BinOp arm (src/eval.rs lines 138-159), applied to
two already-evaluated operands.  The source combines the boolean coercions
for And/Or with Rust's lazy && and ||: the right-hand coercion — including
its possible failure — only runs when the left operand has not already
decided the result; the nested matches reproduce exactly that.  Likewise
Plus attempts as_f64 on the left operand first and falls back to string
concatenation only when that left coercion fails; a failure of the right
coercion propagates as an error. -/
def evalBinOp : BinOpKind → DynVal → DynVal → Except EvalError DynVal
  | .Equals, a, b => .ok (fromBool (a == b))
  | .NotEquals, a, b => .ok (fromBool (a != b))
  | .And, a, b =>
    match as_bool a with
    | .error m => .error (.ConversionError m)
    | .ok false => .ok (fromBool false)
    | .ok true =>
      match as_bool b with
      | .error m => .error (.ConversionError m)
      | .ok bb => .ok (fromBool bb)
  | .Or, a, b =>
    match as_bool a with
    | .error m => .error (.ConversionError m)
    | .ok true => .ok (fromBool true)
    | .ok false =>
      match as_bool b with
      | .error m => .error (.ConversionError m)
      | .ok bb => .ok (fromBool bb)
  | .Plus, a, b =>
    match as_f64 a with
    | .ok x =>
      match as_f64 b with
      | .ok y => .ok (fromNum (Frac.add x y))
      | .error m => .error (.ConversionError m)
    | .error _ => .ok (as_string a ++ as_string b)
  | .Minus, a, b => numeric2 (fun x y => fromNum (Frac.sub x y)) a b
  | .Times, a, b => numeric2 (fun x y => fromNum (Frac.mul x y)) a b
  | .Div, a, b => numeric2 (fun x y => fromNum (Frac.div x y)) a b
  | .Mod, a, b => numeric2 (fun x y => fromNum (Frac.fmod x y)) a b
  | .GT, a, b => numeric2 (fun x y => fromBool (Frac.blt y x)) a b
  | .LT, a, b => numeric2 (fun x y => fromBool (Frac.blt x y)) a b
  | .Elvis, a, b => .ok (if a.isEmpty then b else a)
  | .RegexMatch, a, b =>
    match compileRegex (as_string b) with
    | .error m => .error (.InvalidRegex m)
    | .ok toks => .ok (fromBool (regexIsMatch toks (as_string a)))

/-- Object indexing of the JsonAccess object arm (src/eval.rs lines
184-187): lookup by the index's string form, falling back to its
integer-stringified form when that misses. -/
def objIndex (members : List (String × Json)) (index : DynVal) : Option Json :=
  match jsonLookup members (as_string index) with
  | some v => some v
  | none =>
    match as_i32 index with
    | .ok n => jsonLookup members (toString n)
    | .error _ => none

/-- Fixed-point rendering used by the round built-in
(format of num with digits fractional digits); rounding of exact halves is
abstracted to half-up — no claim exercises a tie. -/
def fixedFormat (q : Frac) (d : Nat) : String :=
  let nn := q.n.natAbs
  let dd := q.d.natAbs
  let scaled : Nat := (nn * 10 ^ d * 2 + dd) / (2 * dd)
  let ip := scaled / 10 ^ d
  let fp := scaled % 10 ^ d
  let fpStr := toString fp
  let pad := String.mk (List.replicate (d - fpStr.length) '0')
  let body := toString ip ++ (if d = 0 then "" else "." ++ pad ++ fpStr)
  if q.n < 0 ∧ scaled ≠ 0 then "-" ++ body else body

/-- Embedding of call_expr_function (src/eval.rs lines 202-223). -/
def call_expr_function (name : String) (args : List DynVal) : Except EvalError DynVal :=
  if name = "round" then
    match args with
    | [num, digits] =>
      match as_f64 num with
      | .error m => .error (.ConversionError m)
      | .ok x =>
        match as_i32 digits with
        | .error m => .error (.ConversionError m)
        | .ok d => .ok (fixedFormat x (usizeOfI32 d))
    | _ => .error (.WrongArgCount name)
  else if name = "replace" then
    match args with
    | [s, p, r] =>
      match compileRegex (as_string p) with
      | .error m => .error (.InvalidRegex m)
      | .ok toks => .ok (replaceAll toks (as_string s) (escapeReplacement (as_string r)))
    | _ => .error (.WrongArgCount name)
  else .error (.UnknownFunction name)

mutual
/-- Embedding of SimplExpr::eval (src/eval.rs lines 128-199).  The final
Ok(value?.at(span)) of the source re-tags the span of the resulting
DynVal, which the value model drops (spans on values carry no semantic
weight); errors pass through that line unchanged. -/
def SimplExpr.eval : SimplExpr → Env → Except EvalError DynVal
  | .Literal _ x, _ => .ok x
  | .VarRef span name, env =>
    match lookupVar env name with
    | some v => .ok v
    | none => .error (.Spanned span (.UnresolvedVariable name))
  | .BinOp _ a op b, env =>
    match a.eval env with
    | .error e => .error e
    | .ok x =>
      match b.eval env with
      | .error e => .error e
      | .ok y => evalBinOp op x y
  | .UnaryOp _ .Not a, env =>
    match a.eval env with
    | .error e => .error e
    | .ok x =>
      match as_bool x with
      | .error m => .error (.ConversionError m)
      | .ok bb => .ok (fromBool (!bb))
  | .IfElse _ cond yes no, env =>
    match cond.eval env with
    | .error e => .error e
    | .ok cv =>
      match as_bool cv with
      | .error m => .error (.ConversionError m)
      | .ok true => yes.eval env
      | .ok false => no.eval env
  | .JsonAccess span v i, env =>
    match v.eval env with
    | .error e => .error e
    | .ok val =>
      match i.eval env with
      | .error e => .error e
      | .ok index =>
        match as_json_value val with
        | .error m => .error (.ConversionError m)
        | .ok (.arr elems) =>
          match as_i32 index with
          | .error m => .error (.ConversionError m)
          | .ok n => .ok (fromJson ((elems.get? (usizeOfI32 n)).getD .null))
        | .ok (.obj members) => .ok (fromJson ((objIndex members index).getD .null))
        | .ok _ => .error (.Spanned span (.CannotIndex (as_string val)))
  | .FunctionCall span name args, env =>
    match SimplExpr.evalList args env with
    | .error e => .error e
    | .ok vals =>
      match call_expr_function name vals with
      | .error e => .error (.Spanned span e)
      | .ok v => .ok v

def SimplExpr.evalList : List SimplExpr → Env → Except EvalError (List DynVal)
  | [], _ => .ok []
  | a :: rest, env =>
    match a.eval env with
    | .error e => .error e
    | .ok v =>
      match SimplExpr.evalList rest env with
      | .error e => .error e
      | .ok vs => .ok (v :: vs)
end

/-- Embedding of SimplExpr::eval_no_vars (src/eval.rs lines 120-126): only
an unspanned UnknownVariable failure is remapped to NoVariablesAllowed;
every other result passes through unchanged. -/
def SimplExpr.eval_no_vars (e : SimplExpr) : Except EvalError DynVal :=
  match e.eval [] with
  | .ok x => .ok x
  | .error (.UnknownVariable name) => .error (.NoVariablesAllowed name)
  | .error x => .error x

/-- Modelled from the spec: the dispatch the specification mandates for the
function registry — "the core dispatch mechanism must be able to fall
through to such a registry before failing UnknownFunction".  This
definition follows the spec's words; SimplExpr.eval above follows the
source, and claim C7 compares the two. -/
def call_with_function_source (host : String → List DynVal → Option DynVal)
    (name : String) (args : List DynVal) : Except EvalError DynVal :=
  match call_expr_function name args with
  | .error (.UnknownFunction n) =>
    match host name args with
    | some v => .ok v
    | none => .error (.UnknownFunction n)
  | other => other

end Simplexpr

namespace Simplexpr

/-- Error shapes SimplExpr.eval can actually produce: never a bare
UnknownVariable (that constructor appears only span-wrapped inside
resolve_refs) and never a NoVariablesAllowed. -/
def isVarErrFree (err : EvalError) : Prop :=
  (∀ n, err ≠ EvalError.UnknownVariable n) ∧ (∀ n, err ≠ EvalError.NoVariablesAllowed n)

/-- A result whose error part, if any, is var-error-free. -/
def resultVarErrFree {α : Type} (r : Except EvalError α) : Prop :=
  ∀ err, r = .error err → isVarErrFree err

theorem rvefError {α : Type} (e : EvalError) (he : isVarErrFree e) :
    resultVarErrFree (α := α) (.error e) :=
  fun _ h => by cases h; exact he

theorem rvefOk {α : Type} (v : α) : resultVarErrFree (.ok v) := fun _ h => nomatch h

theorem evalBinOp_varErrFree (op : BinOpKind) (a b : DynVal) :
    resultVarErrFree (evalBinOp op a b) := by
  cases op <;> simp only [evalBinOp, numeric2]
  all_goals repeat' split
  all_goals try exact rvefOk _
  all_goals refine rvefError _ ?_
  all_goals exact ⟨(fun _ hh => nomatch hh), (fun _ hh => nomatch hh)⟩

theorem call_expr_function_varErrFree (name : String) (args : List DynVal) :
    resultVarErrFree (call_expr_function name args) := by
  simp only [call_expr_function]
  repeat' split
  all_goals try exact rvefOk _
  all_goals refine rvefError _ ?_
  all_goals exact ⟨(fun _ hh => nomatch hh), (fun _ hh => nomatch hh)⟩

end Simplexpr

namespace Simplexpr

mutual
theorem eval_varErrFree : ∀ (e : SimplExpr) (env : Env), resultVarErrFree (e.eval env)
  | .Literal _ _, _ => by
      simp only [SimplExpr.eval]
      exact rvefOk _
  | .VarRef sp n, env => by
      cases h : lookupVar env n with
      | some v =>
        simp only [SimplExpr.eval, h]
        exact rvefOk _
      | none =>
        simp only [SimplExpr.eval, h]
        refine rvefError _ ?_
        exact ⟨(fun _ hh => nomatch hh), (fun _ hh => nomatch hh)⟩
  | .BinOp _ a op b, env => by
      cases ha : a.eval env with
      | error e1 =>
        simp only [SimplExpr.eval, ha]
        exact rvefError _ (eval_varErrFree a env e1 ha)
      | ok x =>
        cases hb : b.eval env with
        | error e2 =>
          simp only [SimplExpr.eval, ha, hb]
          exact rvefError _ (eval_varErrFree b env e2 hb)
        | ok y =>
          simp only [SimplExpr.eval, ha, hb]
          exact evalBinOp_varErrFree op x y
  | .UnaryOp _ .Not a, env => by
      cases ha : a.eval env with
      | error e1 =>
        simp only [SimplExpr.eval, ha]
        exact rvefError _ (eval_varErrFree a env e1 ha)
      | ok x =>
        cases hb : as_bool x with
        | error m =>
          simp only [SimplExpr.eval, ha, hb]
          refine rvefError _ ?_
          exact ⟨(fun _ hh => nomatch hh), (fun _ hh => nomatch hh)⟩
        | ok bb =>
          simp only [SimplExpr.eval, ha, hb]
          exact rvefOk _
  | .IfElse _ cond yes no, env => by
      cases hc : cond.eval env with
      | error e1 =>
        simp only [SimplExpr.eval, hc]
        exact rvefError _ (eval_varErrFree cond env e1 hc)
      | ok cv =>
        cases hb : as_bool cv with
        | error m =>
          simp only [SimplExpr.eval, hc, hb]
          refine rvefError _ ?_
          exact ⟨(fun _ hh => nomatch hh), (fun _ hh => nomatch hh)⟩
        | ok bb =>
          cases bb with
          | true =>
            simp only [SimplExpr.eval, hc, hb]
            exact eval_varErrFree yes env
          | false =>
            simp only [SimplExpr.eval, hc, hb]
            exact eval_varErrFree no env
  | .JsonAccess sp v i, env => by
      cases hv : v.eval env with
      | error e1 =>
        simp only [SimplExpr.eval, hv]
        exact rvefError _ (eval_varErrFree v env e1 hv)
      | ok val =>
        cases hi : i.eval env with
        | error e2 =>
          simp only [SimplExpr.eval, hv, hi]
          exact rvefError _ (eval_varErrFree i env e2 hi)
        | ok index =>
          cases hj : as_json_value val with
          | error m =>
            simp only [SimplExpr.eval, hv, hi, hj]
            refine rvefError _ ?_
            exact ⟨(fun _ hh => nomatch hh), (fun _ hh => nomatch hh)⟩
          | ok j =>
            cases j with
            | arr elems =>
              cases hn : as_i32 index with
              | error m =>
                simp only [SimplExpr.eval, hv, hi, hj, hn]
                refine rvefError _ ?_
                exact ⟨(fun _ hh => nomatch hh), (fun _ hh => nomatch hh)⟩
              | ok n =>
                simp only [SimplExpr.eval, hv, hi, hj, hn]
                exact rvefOk _
            | obj members =>
              simp only [SimplExpr.eval, hv, hi, hj]
              exact rvefOk _
            | null =>
              simp only [SimplExpr.eval, hv, hi, hj]
              refine rvefError _ ?_
              exact ⟨(fun _ hh => nomatch hh), (fun _ hh => nomatch hh)⟩
            | bool bb =>
              simp only [SimplExpr.eval, hv, hi, hj]
              refine rvefError _ ?_
              exact ⟨(fun _ hh => nomatch hh), (fun _ hh => nomatch hh)⟩
            | num tok =>
              simp only [SimplExpr.eval, hv, hi, hj]
              refine rvefError _ ?_
              exact ⟨(fun _ hh => nomatch hh), (fun _ hh => nomatch hh)⟩
            | str st =>
              simp only [SimplExpr.eval, hv, hi, hj]
              refine rvefError _ ?_
              exact ⟨(fun _ hh => nomatch hh), (fun _ hh => nomatch hh)⟩
  | .FunctionCall sp name args, env => by
      cases hl : SimplExpr.evalList args env with
      | error e1 =>
        simp only [SimplExpr.eval, hl]
        exact rvefError _ (evalList_varErrFree args env e1 hl)
      | ok vals =>
        cases hc : call_expr_function name vals with
        | error e2 =>
          simp only [SimplExpr.eval, hl, hc]
          refine rvefError _ ?_
          exact ⟨(fun _ hh => nomatch hh), (fun _ hh => nomatch hh)⟩
        | ok v =>
          simp only [SimplExpr.eval, hl, hc]
          exact rvefOk _

theorem evalList_varErrFree : ∀ (l : List SimplExpr) (env : Env),
    resultVarErrFree (SimplExpr.evalList l env)
  | [], _ => by
      simp only [SimplExpr.evalList]
      exact rvefOk _
  | a :: rest, env => by
      cases ha : a.eval env with
      | error e1 =>
        simp only [SimplExpr.evalList, ha]
        exact rvefError _ (eval_varErrFree a env e1 ha)
      | ok v =>
        cases hr : SimplExpr.evalList rest env with
        | error e2 =>
          simp only [SimplExpr.evalList, ha, hr]
          exact rvefError _ (evalList_varErrFree rest env e2 hr)
        | ok vs =>
          simp only [SimplExpr.evalList, ha, hr]
          exact rvefOk _
end

end Simplexpr

namespace Simplexpr

/-- C3: evaluating a variable reference under the empty environment fails
with a span-wrapped UnresolvedVariable, which eval_no_vars passes through
unchanged — the UnknownVariable remap arm of eval_no_vars matches only a
bare UnknownVariable, which eval never produces, so no failure is ever
reclassified as NoVariablesAllowed. -/
theorem eval_no_vars_never_reclassifies :
    SimplExpr.eval_no_vars (.VarRef 7 "x") = .error (.Spanned 7 (.UnresolvedVariable "x")) ∧
    ∀ (e : SimplExpr) (name : String),
      SimplExpr.eval_no_vars e ≠ .error (.NoVariablesAllowed name) := by
  constructor
  · rfl
  · intro e name h
    simp only [SimplExpr.eval_no_vars] at h
    cases hr : e.eval [] with
    | ok v =>
      simp only [hr] at h
      exact nomatch h
    | error err =>
      have hfree := eval_varErrFree e [] err hr
      simp only [hr] at h
      cases err with
      | UnknownVariable n => exact absurd rfl (hfree.1 n)
      | NoVariablesAllowed n => exact absurd rfl (hfree.2 n)
      | InvalidRegex m => exact nomatch h
      | UnresolvedVariable n => exact nomatch h
      | ConversionError m => exact nomatch h
      | WrongArgCount f => exact nomatch h
      | UnknownFunction n => exact nomatch h
      | CannotIndex s => exact nomatch h
      | Spanned sp inner => exact nomatch h

mutual
theorem resolve_refs_eval : ∀ (t t' : SimplExpr) (env env' : Env),
    t.resolve_refs env = .ok t' → t'.eval env' = t.eval env
  | .Literal sp x, t', env, env' => by
      intro h
      simp only [SimplExpr.resolve_refs] at h
      cases h
      rfl
  | .VarRef sp n, t', env, env' => by
      intro h
      cases hl : lookupVar env n with
      | some v =>
        simp only [SimplExpr.resolve_refs, hl] at h
        cases h
        simp only [SimplExpr.eval, hl]
      | none =>
        simp only [SimplExpr.resolve_refs, hl] at h
        exact nomatch h
  | .BinOp sp a op b, t', env, env' => by
      intro h
      cases ha : a.resolve_refs env with
      | error e =>
        simp only [SimplExpr.resolve_refs, ha] at h
        exact nomatch h
      | ok a2 =>
        cases hb : b.resolve_refs env with
        | error e =>
          simp only [SimplExpr.resolve_refs, ha, hb] at h
          exact nomatch h
        | ok b2 =>
          simp only [SimplExpr.resolve_refs, ha, hb] at h
          cases h
          have ia := resolve_refs_eval a a2 env env' ha
          have ib := resolve_refs_eval b b2 env env' hb
          simp only [SimplExpr.eval, ia, ib]
  | .UnaryOp sp op a, t', env, env' => by
      intro h
      cases ha : a.resolve_refs env with
      | error e =>
        simp only [SimplExpr.resolve_refs, ha] at h
        exact nomatch h
      | ok a2 =>
        simp only [SimplExpr.resolve_refs, ha] at h
        cases h
        have ia := resolve_refs_eval a a2 env env' ha
        cases op
        simp only [SimplExpr.eval, ia]
  | .IfElse sp a b c, t', env, env' => by
      intro h
      cases ha : a.resolve_refs env with
      | error e =>
        simp only [SimplExpr.resolve_refs, ha] at h
        exact nomatch h
      | ok a2 =>
        cases hb : b.resolve_refs env with
        | error e =>
          simp only [SimplExpr.resolve_refs, ha, hb] at h
          exact nomatch h
        | ok b2 =>
          cases hc : c.resolve_refs env with
          | error e =>
            simp only [SimplExpr.resolve_refs, ha, hb, hc] at h
            exact nomatch h
          | ok c2 =>
            simp only [SimplExpr.resolve_refs, ha, hb, hc] at h
            cases h
            have ia := resolve_refs_eval a a2 env env' ha
            have ib := resolve_refs_eval b b2 env env' hb
            have ic := resolve_refs_eval c c2 env env' hc
            simp only [SimplExpr.eval, ia, ib, ic]
  | .JsonAccess sp a b, t', env, env' => by
      intro h
      cases ha : a.resolve_refs env with
      | error e =>
        simp only [SimplExpr.resolve_refs, ha] at h
        exact nomatch h
      | ok a2 =>
        cases hb : b.resolve_refs env with
        | error e =>
          simp only [SimplExpr.resolve_refs, ha, hb] at h
          exact nomatch h
        | ok b2 =>
          simp only [SimplExpr.resolve_refs, ha, hb] at h
          cases h
          have ia := resolve_refs_eval a a2 env env' ha
          have ib := resolve_refs_eval b b2 env env' hb
          simp only [SimplExpr.eval, ia, ib]
  | .FunctionCall sp name args, t', env, env' => by
      intro h
      cases hl : SimplExpr.resolveRefsList args env with
      | error e =>
        simp only [SimplExpr.resolve_refs, hl] at h
        exact nomatch h
      | ok args2 =>
        simp only [SimplExpr.resolve_refs, hl] at h
        cases h
        have il := resolveRefsList_evalList args args2 env env' hl
        simp only [SimplExpr.eval, il]

theorem resolveRefsList_evalList : ∀ (l l' : List SimplExpr) (env env' : Env),
    SimplExpr.resolveRefsList l env = .ok l' →
    SimplExpr.evalList l' env' = SimplExpr.evalList l env
  | [], l', env, env' => by
      intro h
      simp only [SimplExpr.resolveRefsList] at h
      cases h
      rfl
  | a :: rest, l', env, env' => by
      intro h
      cases ha : a.resolve_refs env with
      | error e =>
        simp only [SimplExpr.resolveRefsList, ha] at h
        exact nomatch h
      | ok a2 =>
        cases hr : SimplExpr.resolveRefsList rest env with
        | error e =>
          simp only [SimplExpr.resolveRefsList, ha, hr] at h
          exact nomatch h
        | ok rest2 =>
          simp only [SimplExpr.resolveRefsList, ha, hr] at h
          cases h
          have ia := resolve_refs_eval a a2 env env' ha
          have ir := resolveRefsList_evalList rest rest2 env env' hr
          simp only [SimplExpr.evalList, ia, ir]
end

end Simplexpr

namespace Simplexpr

mutual
theorem resolve_refs_total : ∀ (t : SimplExpr) (env : Env),
    (∀ n, n ∈ t.var_refs → (lookupVar env n).isSome) →
    ∃ t', t.resolve_refs env = .ok t'
  | .Literal sp x, env => fun _ => ⟨.Literal sp x, rfl⟩
  | .VarRef sp n, env => by
      intro hb
      have hn := hb n (by simp [SimplExpr.var_refs])
      cases hl : lookupVar env n with
      | none =>
        rw [hl] at hn
        exact nomatch hn
      | some v => exact ⟨.Literal sp v, by simp only [SimplExpr.resolve_refs, hl]⟩
  | .BinOp sp a op b, env => by
      intro hb
      obtain ⟨a2, ha⟩ := resolve_refs_total a env
        (fun n hn => hb n (List.mem_append_left _ hn))
      obtain ⟨b2, hb2⟩ := resolve_refs_total b env
        (fun n hn => hb n (List.mem_append_right _ hn))
      exact ⟨.BinOp sp a2 op b2, by simp only [SimplExpr.resolve_refs, ha, hb2]⟩
  | .UnaryOp sp op a, env => by
      intro hb
      obtain ⟨a2, ha⟩ := resolve_refs_total a env (fun n hn => hb n hn)
      exact ⟨.UnaryOp sp op a2, by simp only [SimplExpr.resolve_refs, ha]⟩
  | .IfElse sp a b c, env => by
      intro hb
      obtain ⟨a2, ha⟩ := resolve_refs_total a env
        (fun n hn => hb n (List.mem_append_left _ hn))
      obtain ⟨b2, hb2⟩ := resolve_refs_total b env
        (fun n hn => hb n (List.mem_append_right _ (List.mem_append_left _ hn)))
      obtain ⟨c2, hc⟩ := resolve_refs_total c env
        (fun n hn => hb n (List.mem_append_right _ (List.mem_append_right _ hn)))
      exact ⟨.IfElse sp a2 b2 c2, by simp only [SimplExpr.resolve_refs, ha, hb2, hc]⟩
  | .JsonAccess sp a b, env => by
      intro hb
      obtain ⟨a2, ha⟩ := resolve_refs_total a env
        (fun n hn => hb n (List.mem_append_left _ hn))
      obtain ⟨b2, hb2⟩ := resolve_refs_total b env
        (fun n hn => hb n (List.mem_append_right _ hn))
      exact ⟨.JsonAccess sp a2 b2, by simp only [SimplExpr.resolve_refs, ha, hb2]⟩
  | .FunctionCall sp name args, env => by
      intro hb
      obtain ⟨args2, hl⟩ := resolveRefsList_total args env (fun n hn => hb n hn)
      exact ⟨.FunctionCall sp name args2, by simp only [SimplExpr.resolve_refs, hl]⟩

theorem resolveRefsList_total : ∀ (l : List SimplExpr) (env : Env),
    (∀ n, n ∈ SimplExpr.varRefsList l → (lookupVar env n).isSome) →
    ∃ l', SimplExpr.resolveRefsList l env = .ok l'
  | [], env => fun _ => ⟨[], rfl⟩
  | a :: rest, env => by
      intro hb
      obtain ⟨a2, ha⟩ := resolve_refs_total a env
        (fun n hn => hb n (List.mem_append_left _ hn))
      obtain ⟨rest2, hr⟩ := resolveRefsList_total rest env
        (fun n hn => hb n (List.mem_append_right _ hn))
      exact ⟨a2 :: rest2, by simp only [SimplExpr.resolveRefsList, ha, hr]⟩
end

/-- C4: for a tree all of whose variable references are bound by the
environment, resolve_refs succeeds, and eval_no_vars on the resolved tree
returns exactly the value-or-error outcome of eval on the original tree
with that environment — substitution commutes with evaluation. -/
theorem resolve_then_eval_no_vars (t : SimplExpr) (env : Env)
    (hb : ∀ n, n ∈ t.var_refs → (lookupVar env n).isSome) :
    ∃ t', t.resolve_refs env = .ok t' ∧ t'.eval_no_vars = t.eval env := by
  obtain ⟨t', ht⟩ := resolve_refs_total t env hb
  refine ⟨t', ht, ?_⟩
  have he : t'.eval [] = t.eval env := resolve_refs_eval t t' env [] ht
  simp only [SimplExpr.eval_no_vars, he]
  cases hr : t.eval env with
  | ok v => rfl
  | error err =>
    have hfree := eval_varErrFree t env err hr
    cases err <;> first | rfl | exact absurd rfl (hfree.1 _)

/-- C4 witness: a concrete bound tree, x + 1 with x bound to 2. -/
theorem resolve_then_eval_no_vars_witness :
    ∃ t', SimplExpr.resolve_refs (.BinOp 0 (.VarRef 1 "x") .Plus (.Literal 2 "1"))
            [("x", "2")] = .ok t' ∧
          t'.eval_no_vars =
            SimplExpr.eval (.BinOp 0 (.VarRef 1 "x") .Plus (.Literal 2 "1")) [("x", "2")] :=
  resolve_then_eval_no_vars _ _ (by decide)

end Simplexpr

namespace Simplexpr

/-- C1 counterexample: with a numeric left operand and a non-numeric right
operand, Plus does not fall back to concatenation — the failed coercion of
the right operand propagates as a ConversionError, so 1 + "a" fails instead
of producing "1a". -/
theorem plus_right_nonnumeric_fails :
    as_f64 "1" = .ok ⟨1, 1⟩ ∧
    as_f64 "a" = .error (convErr "a" "f64") ∧
    SimplExpr.eval (.BinOp 0 (.Literal 0 "1") .Plus (.Literal 0 "a")) [] =
      .error (.ConversionError (convErr "a" "f64")) ∧
    SimplExpr.eval (.BinOp 0 (.Literal 0 "1") .Plus (.Literal 0 "a")) [] ≠ .ok "1a" := by
  refine ⟨rfl, rfl, by decide, by decide⟩

/-- C1 amended: Plus dispatch is left-biased — numeric addition when both
operands coerce to numbers; string concatenation only when the left
operand's numeric coercion fails; when the left operand is numeric and the
right is not, the operation fails with the right operand's conversion
error. -/
theorem plus_dispatch (sp : Span) (l r : SimplExpr) (env : Env) (a b : DynVal)
    (hl : l.eval env = .ok a) (hr : r.eval env = .ok b) :
    SimplExpr.eval (.BinOp sp l .Plus r) env =
      match as_f64 a with
      | .ok x =>
        match as_f64 b with
        | .ok y => .ok (fromNum (Frac.add x y))
        | .error m => .error (.ConversionError m)
      | .error _ => .ok (as_string a ++ as_string b) := by
  simp only [SimplExpr.eval, hl, hr, evalBinOp]

/-- C1 witness: 1 + 2 is the numeric "3", "a" + "b" is the concatenation
"ab". -/
theorem plus_dispatch_witness :
    SimplExpr.eval (.BinOp 0 (.Literal 0 "1") .Plus (.Literal 0 "2")) [] = .ok "3" ∧
    SimplExpr.eval (.BinOp 0 (.Literal 0 "a") .Plus (.Literal 0 "b")) [] = .ok "ab" := by
  constructor
  · exact (plus_dispatch 0 (.Literal 0 "1") (.Literal 0 "2") [] "1" "2" rfl rfl).trans (by decide)
  · exact (plus_dispatch 0 (.Literal 0 "a") (.Literal 0 "b") [] "a" "b" rfl rfl).trans (by decide)

/-- C2 counterexample: when the left operand of And coerces to false (or
the left operand of Or coerces to true) and the right operand is not
boolean-coercible, evaluation succeeds instead of failing with a conversion
error — the right operand's coercion is short-circuited. -/
theorem and_or_right_coercion_skipped :
    as_bool "xyz" = .error (convErr "xyz" "bool") ∧
    as_bool "false" = .ok false ∧
    SimplExpr.eval (.BinOp 0 (.Literal 0 "false") .And (.Literal 0 "xyz")) [] = .ok "false" ∧
    as_bool "true" = .ok true ∧
    SimplExpr.eval (.BinOp 0 (.Literal 0 "true") .Or (.Literal 0 "xyz")) [] = .ok "true" := by
  refine ⟨rfl, rfl, by decide, rfl, by decide⟩

/-- C2 amended: both operand subtrees of And/Or are always evaluated (a
failure of the right subtree propagates even when the left operand already
decides the result), but the boolean coercion short-circuits: the right
operand's coercion runs — and can fail — only when the left operand of And
coerced to true, respectively the left operand of Or coerced to false. -/
theorem and_or_strict_subtrees_lazy_coercion (sp : Span) (l r : SimplExpr) (env : Env)
    (a : DynVal) (hl : l.eval env = .ok a) :
    (∀ err, r.eval env = .error err →
      SimplExpr.eval (.BinOp sp l .And r) env = .error err ∧
      SimplExpr.eval (.BinOp sp l .Or r) env = .error err) ∧
    (∀ b, r.eval env = .ok b →
      SimplExpr.eval (.BinOp sp l .And r) env =
        (match as_bool a with
         | .error m => .error (.ConversionError m)
         | .ok false => .ok (fromBool false)
         | .ok true =>
           match as_bool b with
           | .error m => .error (.ConversionError m)
           | .ok bb => .ok (fromBool bb)) ∧
      SimplExpr.eval (.BinOp sp l .Or r) env =
        (match as_bool a with
         | .error m => .error (.ConversionError m)
         | .ok true => .ok (fromBool true)
         | .ok false =>
           match as_bool b with
           | .error m => .error (.ConversionError m)
           | .ok bb => .ok (fromBool bb))) := by
  constructor
  · intro err hr
    constructor <;> simp only [SimplExpr.eval, hl, hr]
  · intro b hr
    constructor <;> simp only [SimplExpr.eval, hl, hr, evalBinOp]

/-- C2 witness: the right subtree's own evaluation failure propagates even
under a false And-left, and Or with a false left does run the right
coercion and fails on a non-boolean right operand. -/
theorem and_or_strict_subtrees_lazy_coercion_witness :
    SimplExpr.eval (.BinOp 0 (.Literal 0 "false") .And (.VarRef 3 "z")) [] =
      .error (.Spanned 3 (.UnresolvedVariable "z")) ∧
    SimplExpr.eval (.BinOp 0 (.Literal 0 "false") .Or (.Literal 0 "xyz")) [] =
      .error (.ConversionError (convErr "xyz" "bool")) := by
  constructor
  · exact ((and_or_strict_subtrees_lazy_coercion 0 (.Literal 0 "false") (.VarRef 3 "z") []
      "false" rfl).1 _ rfl).1
  · exact (((and_or_strict_subtrees_lazy_coercion 0 (.Literal 0 "false") (.Literal 0 "xyz") []
      "false" rfl).2 "xyz" rfl).2).trans (by decide)

/-- C9: the Elvis operator, applied to two successfully evaluated operands,
returns the right value exactly when the left value's canonical string is
empty, and the left value unchanged otherwise; it never fails and performs
no boolean-falsiness test. -/
theorem elvis_default_if_empty (sp : Span) (l r : SimplExpr) (env : Env) (a b : DynVal)
    (hl : l.eval env = .ok a) (hr : r.eval env = .ok b) :
    SimplExpr.eval (.BinOp sp l .Elvis r) env = .ok (if a.isEmpty then b else a) := by
  simp only [SimplExpr.eval, hl, hr, evalBinOp]

/-- C9 witness: the spec's two Elvis examples, plus a falsy-but-non-empty
left operand that is still returned unchanged. -/
theorem elvis_default_if_empty_witness :
    SimplExpr.eval (.BinOp 0 (.Literal 0 "") .Elvis (.Literal 0 "x")) [] = .ok "x" ∧
    SimplExpr.eval (.BinOp 0 (.Literal 0 "a") .Elvis (.Literal 0 "x")) [] = .ok "a" ∧
    SimplExpr.eval (.BinOp 0 (.Literal 0 "false") .Elvis (.Literal 0 "x")) [] = .ok "false" := by
  refine ⟨?_, ?_, ?_⟩
  · exact (elvis_default_if_empty 0 (.Literal 0 "") (.Literal 0 "x") [] "" "x" rfl rfl).trans
      (by decide)
  · exact (elvis_default_if_empty 0 (.Literal 0 "a") (.Literal 0 "x") [] "a" "x" rfl rfl).trans
      (by decide)
  · exact (elvis_default_if_empty 0 (.Literal 0 "false") (.Literal 0 "x") [] "false" "x" rfl
      rfl).trans (by decide)

end Simplexpr

namespace Simplexpr

/-- Terminal-rewriting transform used to exhibit the recursion boundary of
map_terminals_into: rewrites a Literal's value to "R", leaves every other
node unchanged, and does not descend. -/
def replLitR : SimplExpr → SimplExpr
  | .Literal sp _ => .Literal sp "R"
  | other => other

/-- C5 counterexample: map_terminals_into applies f only one level down —
on the tree (("a" + "b") + "c") with a Literal-rewriting f, the depth-two
literals "a" and "b" are left untouched (f received the whole inner BinOp,
not its leaves), so terminals are not transformed at every depth as the
claim states. -/
theorem map_terminals_into_not_deep :
    SimplExpr.map_terminals_into replLitR
        (.BinOp 0 (.BinOp 1 (.Literal 2 "a") .Plus (.Literal 3 "b")) .Plus (.Literal 4 "c")) =
      .BinOp 0 (.BinOp 1 (.Literal 2 "a") .Plus (.Literal 3 "b")) .Plus (.Literal 4 "R") ∧
    replLitR (.Literal 2 "a") = .Literal 2 "R" ∧
    SimplExpr.map_terminals_into replLitR
        (.BinOp 0 (.BinOp 1 (.Literal 2 "a") .Plus (.Literal 3 "b")) .Plus (.Literal 4 "c")) ≠
      .BinOp 0 (.BinOp 1 (.Literal 2 "R") .Plus (.Literal 3 "R")) .Plus (.Literal 4 "R") := by
  refine ⟨rfl, rfl, ?_⟩
  intro h
  simp [SimplExpr.map_terminals_into, replLitR] at h

/-- C5 amended: map_terminals_into applies f directly to each immediate
child of a BinOp, UnaryOp, IfElse, JsonAccess or FunctionCall root and to
the node itself when it is a Literal or VarRef; it performs no recursion of
its own, so deeper subtrees are transformed only insofar as f itself
descends, and no evaluation takes place. -/
theorem map_terminals_into_one_level (f : SimplExpr → SimplExpr) :
    (∀ sp a op b, SimplExpr.map_terminals_into f (.BinOp sp a op b) =
      .BinOp sp (f a) op (f b)) ∧
    (∀ sp op a, SimplExpr.map_terminals_into f (.UnaryOp sp op a) = .UnaryOp sp op (f a)) ∧
    (∀ sp a b c, SimplExpr.map_terminals_into f (.IfElse sp a b c) =
      .IfElse sp (f a) (f b) (f c)) ∧
    (∀ sp a b, SimplExpr.map_terminals_into f (.JsonAccess sp a b) =
      .JsonAccess sp (f a) (f b)) ∧
    (∀ sp name args, SimplExpr.map_terminals_into f (.FunctionCall sp name args) =
      .FunctionCall sp name (args.map f)) ∧
    (∀ sp v, SimplExpr.map_terminals_into f (.Literal sp v) = f (.Literal sp v)) ∧
    (∀ sp n, SimplExpr.map_terminals_into f (.VarRef sp n) = f (.VarRef sp n)) :=
  ⟨fun _ _ _ _ => rfl, fun _ _ _ => rfl, fun _ _ _ _ => rfl, fun _ _ _ => rfl,
   fun _ _ _ => rfl, fun _ _ => rfl, fun _ _ => rfl⟩

/-- Host registry handling only the function "foo", used to exhibit that
eval's dispatch never reaches any registry. -/
def hostWithFoo : String → List DynVal → Option DynVal :=
  fun name _ => if name = "foo" then some "42" else none

/-- C7 counterexample: a non-built-in call fails UnknownFunction directly —
the spec-mandated dispatch (built-ins, then host registry, then failure)
would have succeeded on a registry that supplies "foo", but eval's dispatch
never consults one. -/
theorem unknown_function_without_registry :
    call_expr_function "foo" [] = .error (.UnknownFunction "foo") ∧
    call_with_function_source hostWithFoo "foo" [] = .ok "42" ∧
    SimplExpr.eval (.FunctionCall 5 "foo" []) [] = .error (.Spanned 5 (.UnknownFunction "foo")) := by
  refine ⟨rfl, rfl, by decide⟩

/-- C7 amended: the FunctionSource capability interface is declared, but
eval's FunctionCall dispatch calls only call_expr_function, whose built-ins
are round and replace: any other name fails UnknownFunction(name)
immediately, with no host registry consulted before the failure. -/
theorem dispatch_builtins_only (name : String) (args : List DynVal) (sp : Span) (env : Env)
    (h1 : name ≠ "round") (h2 : name ≠ "replace") :
    call_expr_function name args = .error (.UnknownFunction name) ∧
    SimplExpr.eval (.FunctionCall sp name []) env =
      .error (.Spanned sp (.UnknownFunction name)) := by
  have hc : ∀ ags : List DynVal, call_expr_function name ags = .error (.UnknownFunction name) := by
    intro ags
    simp [call_expr_function, h1, h2]
  refine ⟨hc args, ?_⟩
  simp only [SimplExpr.eval, SimplExpr.evalList, hc]

/-- C7 witness: the unknown name "foo". -/
theorem dispatch_builtins_only_witness :
    call_expr_function "foo" ["1"] = .error (.UnknownFunction "foo") ∧
    SimplExpr.eval (.FunctionCall 5 "foo" []) [] = .error (.Spanned 5 (.UnknownFunction "foo")) :=
  dispatch_builtins_only "foo" ["1"] 5 [] (by decide) (by decide)

/-- C8: JsonAccess on a container whose string parses as a JSON array
requires the index to coerce to an integer (failing with that conversion
error otherwise) and returns the element at the cast index or JSON null
when out of range; on a JSON object it returns the member found by the
index's string form, else by its integer-stringified form, else JSON null,
and never fails; on any other JSON shape it fails with span-wrapped
CannotIndex. -/
theorem json_access_semantics (sp : Span) (v i : SimplExpr) (env : Env) (val idx : DynVal)
    (j : Json) (hv : v.eval env = .ok val) (hi : i.eval env = .ok idx)
    (hj : as_json_value val = .ok j) :
    (∀ elems, j = .arr elems →
      SimplExpr.eval (.JsonAccess sp v i) env =
        match as_i32 idx with
        | .ok n => .ok (fromJson ((elems.get? (usizeOfI32 n)).getD .null))
        | .error m => .error (.ConversionError m)) ∧
    (∀ members, j = .obj members →
      SimplExpr.eval (.JsonAccess sp v i) env =
        .ok (fromJson ((objIndex members idx).getD .null))) ∧
    ((∀ elems, j ≠ .arr elems) → (∀ members, j ≠ .obj members) →
      SimplExpr.eval (.JsonAccess sp v i) env =
        .error (.Spanned sp (.CannotIndex (as_string val)))) := by
  refine ⟨?_, ?_, ?_⟩
  · intro elems hje
    subst hje
    simp only [SimplExpr.eval, hv, hi, hj]
    cases as_i32 idx <;> rfl
  · intro members hjo
    subst hjo
    simp only [SimplExpr.eval, hv, hi, hj]
  · intro hna hno
    cases j with
    | arr elems => exact absurd rfl (hna elems)
    | obj members => exact absurd rfl (hno members)
    | null => simp only [SimplExpr.eval, hv, hi, hj]
    | bool b => simp only [SimplExpr.eval, hv, hi, hj]
    | num t => simp only [SimplExpr.eval, hv, hi, hj]
    | str s => simp only [SimplExpr.eval, hv, hi, hj]

/-- C8 witness: an out-of-range array index yields "null", a missing object
key yields "null", an object hit by integer-stringified fallback works, and
indexing a scalar fails CannotIndex. -/
theorem json_access_semantics_witness :
    SimplExpr.eval (.JsonAccess 0 (.Literal 0 "[1,2]") (.Literal 0 "5")) [] = .ok "null" ∧
    SimplExpr.eval (.JsonAccess 0 (.Literal 0 "\x7b\"a\":1\x7d") (.Literal 0 "b")) [] =
      .ok "null" ∧
    SimplExpr.eval (.JsonAccess 0 (.Literal 0 "17") (.Literal 0 "0")) [] =
      .error (.Spanned 0 (.CannotIndex "17")) := by
  refine ⟨?_, ?_, ?_⟩
  · exact ((json_access_semantics 0 (.Literal 0 "[1,2]") (.Literal 0 "5") [] "[1,2]" "5"
      (.arr [.num "1", .num "2"]) rfl rfl (by rfl)).1 _ rfl).trans (by decide)
  · exact ((json_access_semantics 0 (.Literal 0 "\x7b\"a\":1\x7d") (.Literal 0 "b") []
      "\x7b\"a\":1\x7d" "b" (.obj [("a", .num "1")]) rfl rfl (by rfl)).2.1 _ rfl).trans
      (by decide)
  · exact (json_access_semantics 0 (.Literal 0 "17") (.Literal 0 "0") [] "17" "0"
      (.num "17") rfl rfl (by rfl)).2.2 (fun _ hh => nomatch hh) (fun _ hh => nomatch hh)

/-- C10: a JsonAccess on a JSON array with an index coercing to a negative
i32 evaluates successfully to JSON null: the negative value is cast to a
64-bit unsigned index of at least 2 to the 64th minus 2 to the 31st, the
guarded element lookup misses (any actual array is far shorter), and the
null default applies — no panic and no error. -/
theorem json_access_negative_index_null (sp : Span) (v i : SimplExpr) (env : Env)
    (val idx : DynVal) (elems : List Json) (n : Int)
    (hv : v.eval env = .ok val) (hi : i.eval env = .ok idx)
    (hj : as_json_value val = .ok (.arr elems))
    (hn : as_i32 idx = .ok n) (hneg : n < 0)
    (hlen : elems.length ≤ 9223372036854775808) :
    SimplExpr.eval (.JsonAccess sp v i) env = .ok (fromJson .null) := by
  have hrange : -2147483648 ≤ n := by
    simp only [as_i32] at hn
    cases hp : parseIntStrict idx with
    | none =>
      simp only [hp] at hn
      exact nomatch hn
    | some m =>
      simp only [hp] at hn
      split at hn
      · cases hn
        rename_i hc
        exact hc.1
      · exact nomatch hn
  have hcast : usizeOfI32 n ≥ 9223372036854775809 := by
    unfold usizeOfI32
    omega
  have hnone : elems.get? (usizeOfI32 n) = none := by
    apply List.get?_eq_none.mpr
    omega
  simp only [SimplExpr.eval, hv, hi, hj, hn, hnone]
  rfl

/-- C10 witness: index -1 into the two-element array [1,2] yields "null". -/
theorem json_access_negative_index_null_witness :
    SimplExpr.eval (.JsonAccess 0 (.Literal 0 "[1,2]") (.Literal 0 "-1")) [] = .ok "null" :=
  json_access_negative_index_null 0 (.Literal 0 "[1,2]") (.Literal 0 "-1") [] "[1,2]" "-1"
    [.num "1", .num "2"] (-1) rfl rfl (by rfl) (by decide) (by decide) (by decide)

end Simplexpr

namespace Simplexpr

/-- Dollar signs introduced by the escaping transform expand back to
literal text: a replacement string containing no backslash is inserted
verbatim at every match. -/
theorem expand_escapeChars (m : String) : ∀ cs : List Char,
    '\\' ∉ cs → expand (escapeChars cs) m = cs := by
  intro cs
  induction cs with
  | nil => intro _; rfl
  | cons c rest ih =>
    intro hmem
    have hrest : '\\' ∉ rest := fun hh => hmem (List.mem_cons_of_mem _ hh)
    have hcne : ¬ c = '\\' := fun he => hmem (by rw [he]; exact List.mem_cons_self _ _)
    by_cases hd : c = '$'
    · subst hd
      simp [escapeChars, expand, expandDollar, ih hrest]
    · simp [escapeChars, expand, expandDollar, hd, hcne, ih hrest]

/-- C6 counterexample: a literal backslash in the replacement string is not
escaped to literal text — the transform rewrites it to a dollar sign, so
the replacement backslash-zero becomes the back-reference dollar-zero and
inserts the whole match: replace("xay", "a", backslash-zero) yields "xay",
not the "x" backslash "0y" the claim's literal-insertion reading requires. -/
theorem replace_backslash_becomes_backreference :
    escapeReplacement "\\0" = "$0" ∧
    call_expr_function "replace" ["xay", "a", "\\0"] = .ok "xay" ∧
    call_expr_function "replace" ["xay", "a", "\\0"] ≠ .ok "x\\0y" := by
  refine ⟨rfl, by decide, by decide⟩

/-- C6 amended: the built-in replace performs a global regex replace-all;
a literal dollar sign in the replacement is doubled by the escaping
transform and therefore inserted literally (any backslash-free replacement
is inserted verbatim at each match), but a literal backslash is rewritten
to a dollar sign — turned into back-reference syntax — rather than being
escaped to appear literally; the spec's example still holds. -/
theorem replace_global_escaping :
    call_expr_function "replace" ["a.b.c", "\\.", "-"] = .ok "a-b-c" ∧
    (∀ rest : List Char, escapeChars ('\\' :: rest) = '$' :: escapeChars rest) ∧
    (∀ (rep m : String), '\\' ∉ rep.data →
      expand (escapeReplacement rep).data m = rep.data) := by
  refine ⟨by decide, fun rest => rfl, ?_⟩
  intro rep m hmem
  exact expand_escapeChars m rep.data hmem

/-- C6 witness: a replacement containing a dollar sign but no backslash is
inserted literally. -/
theorem replace_global_escaping_witness :
    call_expr_function "replace" ["a.b.c", "\\.", "-"] = .ok "a-b-c" ∧
    expand (escapeReplacement "$-").data "." = "$-".data :=
  ⟨replace_global_escaping.1, replace_global_escaping.2.2 "$-" "." (by decide)⟩

end Simplexpr
